import Mathlib

/-!
# Verification of the Condor2Nav path-addressed file-I/O core

Shallow embedding of `src/tools.cpp` (`DirectoryCreate`, `FileExists`,
`FilePathSplit`) and of the `TYPE_LOCAL` arm of the `CIStream` constructor in
`src/istream.cpp`, together with proofs settling the frozen claims about the
path classification, the directory walk, the existence check and the local
read path.

Modelling conventions:

* paths are `List Char`; `std::string::npos` is `Option.none`, so a scan
  position of type `size_t` that may be `npos` is an `Option Nat`, and the
  C++ `pos + 1` on `size_t` (where `npos + 1` wraps to `0`) is `posSucc`;
* the Win32 calls are oracles: `le p = some code` means
  `::CreateDirectory(p)` fails with `GetLastError() = code` other than
  `ERROR_ALREADY_EXISTS`, membership of `p` in the `dirs` state means the
  directory already exists (`ERROR_ALREADY_EXISTS`, tolerated by the code);
  `re` is the ActiveSync channel's `DirectoryCreate`, whose
  "already exists" tolerance lives inside the channel per its contract;
* the `while` loop of `condor2nav::DirectoryCreate` is embedded with an
  explicit fuel; a separate theorem shows the fuel `s.length + 2` is never
  exhausted, which is the termination claim;
* `std::ifstream` is opened without `std::ios::binary`, i.e. in text mode on
  the Windows CRT: reads translate CRLF pairs to LF and stop at a Ctrl-Z
  (0x1A) byte; `textRead` embeds that translation.
-/

namespace Condor2Nav

/-- The separator set of `find_first_of("/\\", pos)` in the directory walk. -/
def isSep (c : Char) : Bool := c = '/' || c = '\\'

/-- First index `≥ i` (absolute) holding a separator, scanning list `l` whose
head sits at absolute index `i`. -/
def findSepAux : List Char → Nat → Option Nat
  | [], _ => none
  | c :: cs, i => if isSep c then some i else findSepAux cs (i + 1)

/-- `dirName.find_first_of("/\\", start)`: index of the first separator at
index `≥ start`, `none` for `npos`. -/
def findSep (s : List Char) (start : Nat) : Option Nat :=
  findSepAux (s.drop start) start

/-- `pos + 1` on a `size_t` that may be `npos`: `npos + 1` wraps to `0`. -/
def posSucc : Option Nat → Nat
  | none => 0
  | some p => p + 1

/-- `std::string(dirName, 0, pos)`: the prefix of length `pos`, the whole
string when `pos == npos`. -/
def subOf (s : List Char) : Option Nat → List Char
  | none => s
  | some p => s.take p

/-- One iteration's scan-position computation in `condor2nav::DirectoryCreate`
(tools.cpp lines 157-169): the `find_first_of` at the loop top followed by the
special handling when the found position is `0` (network path: skip machine
and share name, with the `size_t` wraparound `npos + 1 == 0`; ActiveSync path:
restart the search at index 1).  `dirName[1]` on a one-character string reads
the terminating NUL, hence the `Char.ofNat 0` default. -/
def scanPos (s : List Char) (pos : Nat) : Option Nat :=
  let p1 := findSep s pos
  if p1 = some 0 then
    if s.getD 1 (Char.ofNat 0) = '\\' then
      findSep s (posSucc (findSep s 2))
    else
      findSep s 1
  else p1

/-- The ActiveSync/remote-device test duplicated at tools.cpp lines 150-152
and 200-202: `size() > 2 && s[0] == '\\' && s[1] != '\\'`. -/
def activeSyncPath (s : List Char) : Bool :=
  decide (2 < s.length ∧ s.getD 0 (Char.ofNat 0) = '\\' ∧ s.getD 1 (Char.ofNat 0) ≠ '\\')

/-- Outcome of one create-directory call plus the updated set of existing
local directories.  Local backend (tools.cpp lines 177-179): an existing
directory is `ERROR_ALREADY_EXISTS`, tolerated; otherwise the `le` oracle
decides between success (directory added) and a fatal error code.  Remote
backend: the channel's `DirectoryCreate`, oracle `re`. -/
def callRes (le re : List Char → Option Nat) (b : Bool) (dirs : List (List Char))
    (subDir : List Char) : Option Nat × List (List Char) :=
  if b then (re subDir, dirs)
  else if subDir ∈ dirs then (none, dirs)
  else
    match le subDir with
    | some c => (some c, dirs)
    | none => (none, subDir :: dirs)

/-- Result of a `DirectoryCreate` run: the create calls issued in order
(tagged `true` for the ActiveSync channel, `false` for local
`::CreateDirectory`), the final set of existing local directories, and the
fatal error (backend tag, failing argument, error code) if the walk aborted
(the failing call is included in `calls`). -/
structure DCOut where
  calls : List (Bool × List Char)
  dirs : List (List Char)
  err : Option (Bool × List Char × Nat)
deriving DecidableEq, Repr

/-- The `while(pos != npos)` loop of `condor2nav::DirectoryCreate`
(tools.cpp lines 156-184), with explicit fuel (`none` = fuel exhausted;
`dcLoop_ne_none` shows the fuel used by `DirectoryCreate` always suffices).
Each iteration recomputes the scan position, takes the prefix `subDir`,
issues one create call, and continues past the found separator. -/
def dcLoop (le re : List Char → Option Nat) (b : Bool) (s : List Char) :
    Nat → Nat → List (List Char) → Option DCOut
  | 0, _, _ => none
  | fuel + 1, pos, dirs =>
    let subDir := subOf s (scanPos s pos)
    let r := callRes le re b dirs subDir
    match r.1 with
    | some c => some ⟨[(b, subDir)], r.2, some (b, subDir, c)⟩
    | none =>
      match scanPos s pos with
      | none => some ⟨[(b, subDir)], r.2, none⟩
      | some p =>
        match dcLoop le re b s fuel (p + 1) r.2 with
        | none => none
        | some out => some ⟨(b, subDir) :: out.calls, out.dirs, out.err⟩

/-- `condor2nav::DirectoryCreate` (tools.cpp lines 148-186): classify via the
ActiveSync test, no-op on the empty path, else run the walk from position 0
over the initial local-directory state `dirs`. -/
def DirectoryCreate (le re : List Char → Option Nat) (dirs : List (List Char))
    (s : List Char) : Option DCOut :=
  if s = [] then some ⟨[], dirs, none⟩
  else dcLoop le re (activeSyncPath s) s (s.length + 2) 0 dirs

/-- Outcome of a local read-only open attempt (`std::ifstream` + `is_open`). -/
inductive OpenRes
  | opened
  | absent
  | unreadable
deriving DecidableEq, Repr

/-- `condor2nav::FileExists` (tools.cpp lines 198-212): ActiveSync paths are
delegated to the channel's `FileExists`; every other path is checked by
opening it read-only, `is_open` collapsing "absent" and "unreadable" to
`false`.  Total: no failure is ever surfaced. -/
def FileExists (rfe : List Char → Bool) (lres : List Char → OpenRes)
    (s : List Char) : Bool :=
  if activeSyncPath s then rfe s
  else
    match lres s with
    | OpenRes.opened => true
    | _ => false

/-- Index of the last `'\\'` in the list (`find_last_of('\\')`), `none` for
`npos`. -/
def findLastBS : List Char → Option Nat
  | [] => none
  | c :: cs =>
    match findLastBS cs with
    | some i => some (i + 1)
    | none => if c = '\\' then some 0 else none

/-- `condor2nav::FilePathSplit` (tools.cpp lines 224-235): split at the last
backslash, the directory part keeping that backslash; no backslash means an
empty directory part. -/
def FilePathSplit (s : List Char) : List Char × List Char :=
  match findLastBS s with
  | some pos => (s.take (pos + 1), s.drop (pos + 1))
  | none => ([], s)

/-- Windows-CRT text-mode read (an `std::ifstream` opened without
`std::ios::binary`, as in istream.cpp line 56): CRLF pairs become LF, a
Ctrl-Z (0x1A) byte ends the input, everything else passes through. -/
def textRead : List Char → List Char
  | [] => []
  | [c] => if c = Char.ofNat 26 then [] else [c]
  | c :: d :: rest =>
    if c = Char.ofNat 26 then []
    else if c = '\r' then
      if d = '\n' then '\n' :: textRead rest
      else c :: textRead (d :: rest)
    else c :: textRead (d :: rest)

/-- The `TYPE_LOCAL` arm of the `condor2nav::CIStream` constructor
(istream.cpp lines 44-64): split the path, save the working directory and
change into the directory part when it is non-empty, open the file part
relative to the now-current directory, throw before any restore if the open
fails, else read the whole file (text mode) and restore the saved directory.
Returns the buffer (`none` = the constructor threw) and the working directory
observed after the call.  The file system is the oracle `fs` keyed by the
resolved path (current directory concatenated with the opened name);
`SetCurrentDirectory` is modelled as succeeding, i.e. the directory part
exists. -/
def cistreamLocal (fileName : List Char) (cwd0 : List Char)
    (fs : List Char → Option (List Char)) : Option (List Char) × List Char :=
  let dir := (FilePathSplit fileName).1
  let file := (FilePathSplit fileName).2
  let cwd1 := if dir = [] then cwd0 else dir
  match fs (cwd1 ++ file) with
  | none => (none, cwd1)
  | some bytes => (some (textRead bytes), if dir = [] then cwd1 else cwd0)

/-! ## Scan-position lemmas -/

theorem findSepAux_bound : ∀ (l : List Char) (i q : Nat),
    findSepAux l i = some q → i ≤ q ∧ q < i + l.length := by
  intro l
  induction l with
  | nil => intro i q h; simp [findSepAux] at h
  | cons c cs ih =>
    intro i q h
    simp only [findSepAux] at h
    split at h
    · simp only [Option.some.injEq] at h
      simp [h]
    · have := ih (i + 1) q h
      simp only [List.length_cons]
      omega

theorem findSepAux_none : ∀ (l : List Char) (i : Nat),
    (∀ c ∈ l, isSep c = false) → findSepAux l i = none := by
  intro l
  induction l with
  | nil => intro i _; rfl
  | cons c cs ih =>
    intro i h
    have hc := h c (List.mem_cons_self c cs)
    simp only [findSepAux, hc, Bool.false_eq_true, if_false]
    exact ih (i + 1) fun d hd => h d (List.mem_cons_of_mem c hd)

theorem findSep_ge {s : List Char} {t q : Nat} (h : findSep s t = some q) : t ≤ q :=
  (findSepAux_bound _ _ _ h).1

theorem findSep_lt {s : List Char} {t q : Nat} (h : findSep s t = some q) :
    q < s.length := by
  rcases le_or_lt t s.length with ht | ht
  · have := (findSepAux_bound _ _ _ h).2
    rw [List.length_drop] at this
    omega
  · rw [findSep, List.drop_eq_nil_of_le (Nat.le_of_lt ht)] at h
    simp [findSepAux] at h

theorem scanPos_lt {s : List Char} {pos p : Nat} (h : scanPos s pos = some p) :
    p < s.length := by
  simp only [scanPos] at h
  split at h
  · split at h
    · exact findSep_lt h
    · exact findSep_lt h
  · exact findSep_lt h

theorem scanPos_ge {s : List Char} {pos p : Nat} (h : scanPos s pos = some p) :
    pos = 0 ∨ pos ≤ p := by
  simp only [scanPos] at h
  split at h
  · rename_i h0
    exact Or.inl (Nat.le_zero.mp (findSep_ge h0))
  · exact Or.inr (findSep_ge h)

/-! ## Per-call lemmas -/

theorem callRes_dirs_sub (le re : List Char → Option Nat) (b : Bool)
    (dirs : List (List Char)) (subDir : List Char) :
    ∀ d ∈ dirs, d ∈ (callRes le re b dirs subDir).2 := by
  intro d hd
  simp only [callRes]
  split
  · exact hd
  · split
    · exact hd
    · split
      · exact hd
      · exact List.mem_cons_of_mem _ hd

theorem callRes_fst_some {le re : List Char → Option Nat} {b : Bool}
    {dirs : List (List Char)} {subDir : List Char} {c : Nat}
    (h : (callRes le re b dirs subDir).1 = some c) :
    (b = true → re subDir = some c) ∧ (b = false → le subDir = some c) := by
  simp only [callRes] at h
  cases b with
  | true => simpa using h
  | false =>
    simp only [Bool.false_eq_true, if_false] at h
    constructor
    · intro hb; cases hb
    · intro _
      split at h
      · simp at h
      · split at h
        · rename_i heq
          simp only [Option.some.injEq] at h
          rw [heq, h]
        · simp at h

theorem callRes_true_fst (le re : List Char → Option Nat)
    (dirs : List (List Char)) (subDir : List Char) :
    (callRes le re true dirs subDir).1 = re subDir := rfl

theorem callRes_false_self_mem {le re : List Char → Option Nat}
    {dirs : List (List Char)} {subDir : List Char}
    (h : (callRes le re false dirs subDir).1 = none) :
    subDir ∈ (callRes le re false dirs subDir).2 := by
  by_cases hm : subDir ∈ dirs
  · simp [callRes, hm]
  · cases hle : le subDir with
    | some c => simp [callRes, hm, hle] at h
    | none => simp [callRes, hm, hle]

theorem callRes_rerun (le : List Char → Option Nat) {re : List Char → Option Nat}
    {b : Bool} {dirs2 : List (List Char)} {subDir : List Char}
    (h1 : b = true → re subDir = none) (h2 : b = false → subDir ∈ dirs2) :
    callRes le re b dirs2 subDir = (none, dirs2) := by
  cases b with
  | true => simp [callRes, h1 rfl]
  | false => simp [callRes, h2 rfl]

/-! ## Walk-loop lemmas -/

theorem dcLoop_tags (le re : List Char → Option Nat) (b : Bool) (s : List Char) :
    ∀ fuel pos dirs out, dcLoop le re b s fuel pos dirs = some out →
      ∀ x ∈ out.calls, x.1 = b := by
  intro fuel
  induction fuel with
  | zero => intro pos dirs out h; simp [dcLoop] at h
  | succ n ih =>
    intro pos dirs out h
    simp only [dcLoop] at h
    split at h
    · simp only [Option.some.injEq] at h
      subst h
      intro x hx
      simp only [List.mem_singleton] at hx
      simp [hx]
    · split at h
      · simp only [Option.some.injEq] at h
        subst h
        intro x hx
        simp only [List.mem_singleton] at hx
        simp [hx]
      · split at h
        · simp at h
        · rename_i out' heq
          simp only [Option.some.injEq] at h
          subst h
          intro x hx
          rcases List.mem_cons.mp hx with hx | hx
          · simp [hx]
          · exact ih _ _ _ heq x hx

theorem dcLoop_mono (le re : List Char → Option Nat) (b : Bool) (s : List Char) :
    ∀ fuel pos dirs out, dcLoop le re b s fuel pos dirs = some out →
      ∀ d ∈ dirs, d ∈ out.dirs := by
  intro fuel
  induction fuel with
  | zero => intro pos dirs out h; simp [dcLoop] at h
  | succ n ih =>
    intro pos dirs out h
    simp only [dcLoop] at h
    split at h
    · simp only [Option.some.injEq] at h
      subst h
      exact callRes_dirs_sub le re b dirs _
    · split at h
      · simp only [Option.some.injEq] at h
        subst h
        exact callRes_dirs_sub le re b dirs _
      · split at h
        · simp at h
        · rename_i out' heq
          simp only [Option.some.injEq] at h
          subst h
          intro d hd
          exact ih _ _ _ heq d (callRes_dirs_sub le re b dirs _ d hd)

theorem dcLoop_ne_none (le re : List Char → Option Nat) (b : Bool) (s : List Char) :
    ∀ fuel pos dirs, pos ≤ s.length → s.length + 1 ≤ fuel + pos →
      dcLoop le re b s fuel pos dirs ≠ none := by
  intro fuel
  induction fuel with
  | zero => intro pos dirs h1 h2; omega
  | succ n ih =>
    intro pos dirs h1 h2
    simp only [dcLoop]
    split
    · simp
    · split
      · simp
      · rename_i p hp
        have hlt := scanPos_lt hp
        have hge := scanPos_ge hp
        split
        · rename_i heq
          exact absurd heq (ih (p + 1) _ (by omega) (by omega))
        · simp

theorem dcLoop_err (le re : List Char → Option Nat) (b : Bool) (s : List Char) :
    ∀ fuel pos dirs out bb a c, dcLoop le re b s fuel pos dirs = some out →
      out.err = some (bb, a, c) →
      (∃ t, out.calls = t ++ [(bb, a)]) ∧
        (bb = true → re a = some c) ∧ (bb = false → le a = some c) := by
  intro fuel
  induction fuel with
  | zero => intro pos dirs out bb a c h; simp [dcLoop] at h
  | succ n ih =>
    intro pos dirs out bb a c h he
    simp only [dcLoop] at h
    split at h
    · rename_i c' hc
      simp only [Option.some.injEq] at h
      subst h
      simp only [Option.some.injEq, Prod.mk.injEq] at he
      obtain ⟨hb, ha, hc'⟩ := he
      subst hb; subst ha; subst hc'
      refine ⟨⟨[], by simp⟩, ?_, ?_⟩
      · intro hb
        subst hb
        exact (callRes_fst_some hc).1 rfl
      · intro hb
        subst hb
        exact (callRes_fst_some hc).2 rfl
    · split at h
      · simp only [Option.some.injEq] at h
        subst h
        simp at he
      · split at h
        · simp at h
        · rename_i out' heq
          simp only [Option.some.injEq] at h
          subst h
          simp only at he
          obtain ⟨⟨t, ht⟩, h1, h2⟩ := ih _ _ _ _ _ _ heq he
          exact ⟨⟨(b, subOf s (scanPos s pos)) :: t, by simp [ht]⟩, h1, h2⟩

theorem dcLoop_ok (le re : List Char → Option Nat) (b : Bool) (s : List Char) :
    ∀ fuel pos dirs out, dcLoop le re b s fuel pos dirs = some out →
      out.err = none → ∀ a,
        ((true, a) ∈ out.calls → re a = none) ∧
        ((false, a) ∈ out.calls → a ∈ out.dirs) := by
  intro fuel
  induction fuel with
  | zero => intro pos dirs out h; simp [dcLoop] at h
  | succ n ih =>
    intro pos dirs out h he
    simp only [dcLoop] at h
    split at h
    · simp only [Option.some.injEq] at h
      subst h
      simp at he
    · rename_i hc
      split at h
      · simp only [Option.some.injEq] at h
        subst h
        intro a
        refine ⟨fun hx => ?_, fun hx => ?_⟩
        · simp only [List.mem_singleton] at hx
          injection hx with h1 h2
          subst h1
          subst h2
          exact hc
        · simp only [List.mem_singleton] at hx
          injection hx with h1 h2
          subst h1
          subst h2
          exact callRes_false_self_mem hc
      · split at h
        · simp at h
        · rename_i out' heq
          simp only [Option.some.injEq] at h
          subst h
          intro a
          refine ⟨fun hx => ?_, fun hx => ?_⟩
          · rcases List.mem_cons.mp hx with hx | hx
            · injection hx with h1 h2
              subst h1
              subst h2
              exact hc
            · exact (ih _ _ _ heq he a).1 hx
          · rcases List.mem_cons.mp hx with hx | hx
            · injection hx with h1 h2
              subst h1
              subst h2
              exact dcLoop_mono le re false s n _ _ _ heq _ (callRes_false_self_mem hc)
            · exact (ih _ _ _ heq he a).2 hx

theorem dcLoop_rerun (le re : List Char → Option Nat) (b : Bool) (s : List Char) :
    ∀ fuel pos dirs dirs2 out, dcLoop le re b s fuel pos dirs = some out →
      out.err = none →
      (∀ a, (false, a) ∈ out.calls → a ∈ dirs2) →
      (∀ a, (true, a) ∈ out.calls → re a = none) →
      ∃ out2, dcLoop le re b s fuel pos dirs2 = some out2 ∧
        out2.err = none ∧ out2.calls = out.calls := by
  intro fuel
  induction fuel with
  | zero => intro pos dirs dirs2 out h; simp [dcLoop] at h
  | succ n ih =>
    intro pos dirs dirs2 out h he hloc hrem
    simp only [dcLoop] at h
    split at h
    · simp only [Option.some.injEq] at h
      subst h
      simp at he
    · rename_i hc
      split at h
      · rename_i hp
        simp only [Option.some.injEq] at h
        subst h
        rw [hp] at hloc hrem
        have hrem2 : b = true → re (subOf s none) = none := by
          intro hb; subst hb; exact hrem _ (by simp)
        have hloc2 : b = false → subOf s none ∈ dirs2 := by
          intro hb; subst hb; exact hloc _ (by simp)
        have hcr := callRes_rerun le hrem2 hloc2
        refine ⟨⟨[(b, subOf s none)], dirs2, none⟩, ?_, rfl, by simp [hp]⟩
        simp only [dcLoop, hp, hcr]
      · split at h
        · simp at h
        · rename_i p hp xdc out' heq
          simp only [Option.some.injEq] at h
          subst h
          rw [hp] at hloc hrem
          have hrem2 : b = true → re (subOf s (some p)) = none := by
            intro hb; subst hb; exact hrem _ (List.mem_cons_self _ _)
          have hloc2 : b = false → subOf s (some p) ∈ dirs2 := by
            intro hb; subst hb; exact hloc _ (List.mem_cons_self _ _)
          have hcr := callRes_rerun le hrem2 hloc2
          obtain ⟨out2, hrun2, he2, hcalls2⟩ :=
            ih (p + 1) _ dirs2 out' heq he
              (fun a ha => hloc a (List.mem_cons_of_mem _ ha))
              (fun a ha => hrem a (List.mem_cons_of_mem _ ha))
          refine ⟨⟨(b, subOf s (some p)) :: out2.calls, out2.dirs, out2.err⟩, ?_, he2, ?_⟩
          · simp only [dcLoop, hp, hcr, hrun2]
          · simp [hp, hcalls2]

/-! ## Split and text-mode lemmas -/

theorem findLastBS_eq_none : ∀ (l : List Char), findLastBS l = none ↔ '\\' ∉ l := by
  intro l
  induction l with
  | nil => simp [findLastBS]
  | cons c cs ih =>
    constructor
    · intro h
      cases hcs : findLastBS cs with
      | some i => simp [findLastBS, hcs] at h
      | none =>
        simp only [findLastBS, hcs] at h
        split at h
        · simp at h
        · rename_i hcb
          simp only [List.mem_cons]
          push_neg
          exact ⟨fun he => hcb he.symm, ih.mp hcs⟩
    · intro h
      simp only [List.mem_cons] at h
      push_neg at h
      simp only [findLastBS, ih.mpr h.2]
      rw [if_neg (Ne.symm h.1)]

theorem findLastBS_take : ∀ (l : List Char) (i : Nat), findLastBS l = some i →
    ∃ t, l.take (i + 1) = t ++ ['\\'] := by
  intro l
  induction l with
  | nil => intro i h; simp [findLastBS] at h
  | cons c cs ih =>
    intro i h
    cases hcs : findLastBS cs with
    | some j =>
      simp only [findLastBS, hcs, Option.some.injEq] at h
      subst h
      obtain ⟨t, ht⟩ := ih j hcs
      exact ⟨c :: t, by simp [ht]⟩
    | none =>
      simp only [findLastBS, hcs] at h
      split at h
      · rename_i hcb
        simp only [Option.some.injEq] at h
        subst h
        exact ⟨[], by simp [hcb]⟩
      · simp at h

theorem findLastBS_drop : ∀ (l : List Char) (i : Nat), findLastBS l = some i →
    '\\' ∉ l.drop (i + 1) := by
  intro l
  induction l with
  | nil => intro i h; simp [findLastBS] at h
  | cons c cs ih =>
    intro i h
    cases hcs : findLastBS cs with
    | some j =>
      simp only [findLastBS, hcs, Option.some.injEq] at h
      subst h
      simpa using ih j hcs
    | none =>
      simp only [findLastBS, hcs] at h
      split at h
      · simp only [Option.some.injEq] at h
        subst h
        simpa using (findLastBS_eq_none cs).mp hcs
      · simp at h

theorem textRead_id : ∀ (l : List Char),
    (∀ c ∈ l, c ≠ '\r' ∧ c ≠ Char.ofNat 26) → textRead l = l := by
  intro l
  induction l with
  | nil => intro _; rfl
  | cons c cs ih =>
    intro h
    have hc := h c (List.mem_cons_self c cs)
    have hcs : textRead cs = cs := ih fun d hd => h d (List.mem_cons_of_mem c hd)
    cases cs with
    | nil => simp [textRead, hc.2]
    | cons d rest =>
      simp only [textRead]
      rw [if_neg hc.2, if_neg hc.1, hcs]

/-! ## Claim theorems -/

/-- Claim C1 (code bug): for a Local path with a non-empty directory component
whose open fails, the constructor throws at istream.cpp line 58 before the
`SetCurrentDirectory(dirCurr)` restore at line 62 ever runs, so the process is
left in the path's directory component, not in the pre-call working
directory.  Here the pre-call directory is `C:\orig`, the file
`C:\data\b.txt` is absent (`fs` holds no file), the constructor throws
(buffer `none`), and the observed working directory after the call is
`C:\data\` ≠ `C:\orig`. -/
theorem cistream_open_fail_leaves_cwd :
    (cistreamLocal ("C:\\data\\b.txt".toList) ("C:\\orig".toList) (fun _ => none)).1 = none ∧
    (cistreamLocal ("C:\\data\\b.txt".toList) ("C:\\orig".toList) (fun _ => none)).2 =
      "C:\\data\\".toList ∧
    "C:\\data\\".toList ≠ "C:\\orig".toList := by
  refine ⟨rfl, rfl, by decide⟩

/-- Claim C2, counterexample: for `\\PC1\share\dir\file.txt` the first
create-call argument is `\\PC1\share` (the prefix of length `pos`, excluding
the separator just found, i.e. the merged machine+share root itself), not
`\\PC1\share\dir\` as the claim states. -/
theorem network_walk_first_arg_ne_spec :
    (DirectoryCreate (fun _ => none) (fun _ => none) []
        ("\\\\PC1\\share\\dir\\file.txt".toList)).map
      (fun out => (out.calls.map Prod.snd).head?) ≠
    some (some ("\\\\PC1\\share\\dir\\".toList)) := by
  decide

/-- Claim C2, amended: for `\\PC1\share\dir\file.txt` the walk merges the
machine and share segments into one unsplittable prefix and issues exactly
three local create calls, in order, for `\\PC1\share`, `\\PC1\share\dir` and
`\\PC1\share\dir\file.txt` — each prefix excludes the separator just found;
the merged machine+share root `\\PC1\share` is itself the first create-call
argument, while `\\PC1` (or `\\PC1\`) alone never is. -/
theorem network_walk_trace :
    (DirectoryCreate (fun _ => none) (fun _ => none) []
        ("\\\\PC1\\share\\dir\\file.txt".toList)).map DCOut.calls =
      some [(false, "\\\\PC1\\share".toList),
            (false, "\\\\PC1\\share\\dir".toList),
            (false, "\\\\PC1\\share\\dir\\file.txt".toList)] := by
  decide

/-- Claim C7, counterexample: for `\Storage\logs\out.txt` the issued
create-call arguments are `\Storage`, `\Storage\logs`, `\Storage\logs\out.txt`
(each prefix excludes the separator just found), not the claimed
`\Storage\`, `\Storage\logs\`, `\Storage\logs\out.txt`. -/
theorem device_walk_args_ne_spec :
    (DirectoryCreate (fun _ => none) (fun _ => none) []
        ("\\Storage\\logs\\out.txt".toList)).map
      (fun out => out.calls.map Prod.snd) ≠
    some ["\\Storage\\".toList, "\\Storage\\logs\\".toList,
          "\\Storage\\logs\\out.txt".toList] := by
  decide

/-- Claim C7, amended: for the RemoteDevice path `\Storage\logs\out.txt`,
`DirectoryCreate` issues exactly three remote-channel create calls, in order,
for the growing prefixes `\Storage`, `\Storage\logs` and
`\Storage\logs\out.txt` (each prefix stops just before the separator found),
and makes no local create call. -/
theorem device_walk_trace :
    (DirectoryCreate (fun _ => none) (fun _ => none) []
        ("\\Storage\\logs\\out.txt".toList)).map DCOut.calls =
      some [(true, "\\Storage".toList), (true, "\\Storage\\logs".toList),
            (true, "\\Storage\\logs\\out.txt".toList)] := by
  decide

/-- Claim C10: the walk of `DirectoryCreate` terminates on every finite path:
the fuel `s.length + 2` it is given is never exhausted (the scan position
strictly advances after the first iteration, including in the degenerate
network-path case where the search restarts from `npos + 1 == 0`), so the
walk always returns a result with a finite list of create calls. -/
theorem directoryCreate_terminates (le re : List Char → Option Nat)
    (dirs : List (List Char)) (s : List Char) :
    ∃ out, DirectoryCreate le re dirs s = some out := by
  cases hr : DirectoryCreate le re dirs s with
  | some out => exact ⟨out, rfl⟩
  | none =>
    exfalso
    revert hr
    unfold DirectoryCreate
    split
    · simp
    · exact dcLoop_ne_none le re (activeSyncPath s) s (s.length + 2) 0 dirs
        (Nat.zero_le _) (by omega)

/-- Claim C8: `DirectoryCreate` on the empty path succeeds with no backend
call, and on any non-empty path containing no separator character it issues
exactly one create call whose argument is the whole path itself. -/
theorem ensureDirectory_empty_and_flat (le re : List Char → Option Nat)
    (dirs : List (List Char)) :
    DirectoryCreate le re dirs [] = some ⟨[], dirs, none⟩ ∧
    (∀ s : List Char, s ≠ [] → (∀ c ∈ s, isSep c = false) →
      ∀ out, DirectoryCreate le re dirs s = some out →
        out.calls.map Prod.snd = [s]) := by
  constructor
  · simp [DirectoryCreate]
  · intro s hs hnosep out h
    unfold DirectoryCreate at h
    rw [if_neg hs] at h
    have hfind : findSep s 0 = none := by
      unfold findSep
      simpa using findSepAux_none s 0 hnosep
    have hscan : scanPos s 0 = none := by
      simp [scanPos, hfind]
    obtain ⟨m, hm⟩ : ∃ m, s.length + 2 = m + 1 := ⟨s.length + 1, rfl⟩
    rw [hm] at h
    simp only [dcLoop, hscan] at h
    split at h
    · simp only [Option.some.injEq] at h
      subst h
      simp [subOf]
    · simp only [Option.some.injEq] at h
      subst h
      simp [subOf]

/-- Witness for C8 at the oracle pair that always succeeds and the flat path
`abc`: the single issued call's argument is the whole path. -/
theorem ensureDirectory_empty_and_flat_w :
    List.map Prod.snd [(false, "abc".toList)] = ["abc".toList] :=
  (ensureDirectory_empty_and_flat (fun _ => none) (fun _ => none) []).2
    ("abc".toList) (by decide) (by decide)
    ⟨[(false, "abc".toList)], ["abc".toList], none⟩ (by decide)

/-- Claim C5: the walk fails exactly at a create call that fails for a reason
other than already-exists.  (i) If the walk surfaces an error, the failing
call is the last call issued (the walk aborts there), the error carries the
failing segment's path, and that call's oracle reports a fatal failure
(`le`/`re` yield an error code; an already-existing local directory never
faults).  (ii) If the walk succeeds, no issued call failed fatally: every
remote argument's channel create succeeded and every local argument exists
afterwards.  (iii) Idempotence: re-running on the state a successful run
produced succeeds again (already-exists counts as success at every level). -/
theorem ensureDirectory_fail_iff (le re : List Char → Option Nat)
    (dirs : List (List Char)) (s : List Char) (out : DCOut)
    (h : DirectoryCreate le re dirs s = some out) :
    (∀ bb a c, out.err = some (bb, a, c) →
      (∃ t, out.calls = t ++ [(bb, a)]) ∧
      (bb = true → re a = some c) ∧ (bb = false → le a = some c)) ∧
    (out.err = none →
      (∀ a, (true, a) ∈ out.calls → re a = none) ∧
      (∀ a, (false, a) ∈ out.calls → a ∈ out.dirs)) ∧
    (out.err = none →
      ∃ out2, DirectoryCreate le re out.dirs s = some out2 ∧ out2.err = none) := by
  by_cases hs : s = []
  · subst hs
    unfold DirectoryCreate at h
    rw [if_pos rfl] at h
    simp only [Option.some.injEq] at h
    subst h
    refine ⟨by simp, by simp, fun _ => ?_⟩
    exact ⟨⟨[], dirs, none⟩, by simp [DirectoryCreate], rfl⟩
  · unfold DirectoryCreate at h
    rw [if_neg hs] at h
    refine ⟨?_, ?_, ?_⟩
    · intro bb a c he
      exact dcLoop_err le re (activeSyncPath s) s _ _ _ _ bb a c h he
    · intro he
      exact ⟨fun a ha => (dcLoop_ok le re _ s _ _ _ _ h he a).1 ha,
             fun a ha => (dcLoop_ok le re _ s _ _ _ _ h he a).2 ha⟩
    · intro he
      have hfacts := dcLoop_ok le re (activeSyncPath s) s _ _ _ _ h he
      obtain ⟨out2, hrun2, he2, hcl⟩ :=
        dcLoop_rerun le re (activeSyncPath s) s _ _ _ out.dirs out h he
          (fun a ha => (hfacts a).2 ha) (fun a ha => (hfacts a).1 ha)
      refine ⟨out2, ?_, he2⟩
      unfold DirectoryCreate
      rw [if_neg hs]
      exact hrun2

/-- Witness for C5: a successful run on `a` (state afterwards holds the
directory `a`) re-runs successfully on its own final state. -/
theorem ensureDirectory_fail_iff_w :
    ∃ out2, DirectoryCreate (fun _ => none) (fun _ => none) [['a']] ['a'] = some out2 ∧
      out2.err = none :=
  (ensureDirectory_fail_iff (fun _ => none) (fun _ => none) [] ['a']
      ⟨[(false, ['a'])], [['a']], none⟩ (by decide)).2.2 rfl

/-- Claim C6: `FileExists` is total (it returns a `Bool`, never surfacing a
failure); on a path passing the ActiveSync test it returns exactly the remote
channel's `FileExists` verdict, and on every other path it reports whether
the read-only local open succeeded, with both "absent" and "exists but
unreadable" collapsed to `false`. -/
theorem fileExists_dispatch (rfe : List Char → Bool) (lres : List Char → OpenRes)
    (s : List Char) :
    (activeSyncPath s = true → FileExists rfe lres s = rfe s) ∧
    (activeSyncPath s = false →
      ((FileExists rfe lres s = true) ↔ lres s = OpenRes.opened)) ∧
    (activeSyncPath s = false → lres s ≠ OpenRes.opened →
      FileExists rfe lres s = false) := by
  refine ⟨fun h => ?_, fun h => ?_, fun h hne => ?_⟩
  · simp [FileExists, h]
  · constructor
    · intro ht
      cases hl : lres s with
      | opened => rfl
      | absent => simp [FileExists, h, hl] at ht
      | unreadable => simp [FileExists, h, hl] at ht
    · intro hl
      simp [FileExists, h, hl]
  · cases hl : lres s with
    | opened => exact absurd hl hne
    | absent => simp [FileExists, h, hl]
    | unreadable => simp [FileExists, h, hl]

/-- Witness for C6 at a Local path whose open succeeds. -/
theorem fileExists_dispatch_w :
    FileExists (fun _ => true) (fun _ => OpenRes.opened) ['x'] = true :=
  ((fileExists_dispatch (fun _ => true) (fun _ => OpenRes.opened) ['x']).2.1
    (by decide)).mpr rfl

/-- Claim C3, counterexample: the path `/abc` starts with one forward-slash
separator followed by a non-separator, but `FileExists` does not delegate it
to the remote channel (whose `FileExists` here answers `true` on every path):
the classification tests `s[0] == '\\'` only, so `/abc` is Local and the
failing local open reports `false`. -/
theorem forward_slash_not_remote :
    FileExists (fun _ => true) (fun _ => OpenRes.absent) ("/abc".toList) ≠
      (fun _ => (true : Bool)) ("/abc".toList) := by
  decide

/-- Claim C3, amended: only a leading backslash marks a remote-device path:
for every path of length > 2 whose first character is `'\\'` and whose second
character is not `'\\'`, `FileExists` delegates to the remote channel's
`FileExists`, and every create call the directory walk issues goes to the
remote channel, none to the local filesystem.  (A path whose leading
separator is a forward slash is classified Local.) -/
theorem backslash_device_routes_remote (rfe : List Char → Bool)
    (lres : List Char → OpenRes) (le re : List Char → Option Nat)
    (dirs : List (List Char)) (s : List Char)
    (h1 : 2 < s.length) (h2 : s.getD 0 (Char.ofNat 0) = '\\')
    (h3 : s.getD 1 (Char.ofNat 0) ≠ '\\') :
    FileExists rfe lres s = rfe s ∧
    (∀ out, DirectoryCreate le re dirs s = some out →
      ∀ x ∈ out.calls, x.1 = true) := by
  have ha : activeSyncPath s = true := by
    simp only [activeSyncPath, decide_eq_true_eq]
    exact ⟨h1, h2, h3⟩
  constructor
  · simp [FileExists, ha]
  · intro out hout x hx
    have hs : s ≠ [] := by
      intro he
      subst he
      simp at h1
    unfold DirectoryCreate at hout
    rw [if_neg hs, ha] at hout
    exact dcLoop_tags le re true s _ _ _ _ hout x hx

/-- Witness for C3 (amended) at the device path `\ab`. -/
theorem backslash_device_routes_remote_w :
    FileExists (fun _ => true) (fun _ => OpenRes.absent) ("\\ab".toList) =
      (fun _ => (true : Bool)) ("\\ab".toList) ∧
    (∀ out, DirectoryCreate (fun _ => none) (fun _ => none) [] ("\\ab".toList) = some out →
      ∀ x ∈ out.calls, x.1 = true) :=
  backslash_device_routes_remote _ _ _ _ _ _ (by decide) (by decide) (by decide)

/-- Claim C4, counterexample: the stream is opened in text mode, so a file
whose bytes are `x CR LF y` reads back as `x LF y`: the buffer is not
byte-for-byte identical to the file's contents. -/
theorem local_read_translates_crlf :
    (cistreamLocal ("C:\\d\\f".toList) []
        (fun _ => some ('x' :: '\r' :: '\n' :: ['y']))).1 ≠
      some ('x' :: '\r' :: '\n' :: ['y']) := by
  decide

/-- Claim C4, amended: for every Local file the buffer equals the file's
bytes passed through the Windows text-mode read (each CRLF pair becomes LF, a
Ctrl-Z byte ends the input); byte-for-byte round-trip identity holds for
files containing no carriage-return and no Ctrl-Z byte. -/
theorem local_read_textmode (s cwd0 : List Char)
    (fs : List Char → Option (List Char)) (bytes : List Char)
    (h : fs ((if (FilePathSplit s).1 = [] then cwd0 else (FilePathSplit s).1) ++
        (FilePathSplit s).2) = some bytes) :
    (cistreamLocal s cwd0 fs).1 = some (textRead bytes) ∧
    ((∀ c ∈ bytes, c ≠ '\r' ∧ c ≠ Char.ofNat 26) →
      (cistreamLocal s cwd0 fs).1 = some bytes) := by
  constructor
  · simp only [cistreamLocal, h]
  · intro hb
    simp only [cistreamLocal, h]
    rw [textRead_id bytes hb]

/-- Witness for C4 (amended) at a CR-free, Ctrl-Z-free file: round-trip
identity. -/
theorem local_read_textmode_w :
    (cistreamLocal ("C:\\d\\f".toList) [] (fun _ => some ['x', 'y'])).1 =
      some ['x', 'y'] :=
  (local_read_textmode ("C:\\d\\f".toList) [] (fun _ => some ['x', 'y'])
      ['x', 'y'] rfl).2 (by decide)

/-- Claim C9: `FilePathSplit` splits a path into a directory part and a file
part whose concatenation is the input; the directory part is empty when the
input has no backslash and otherwise ends with a backslash; the file part
contains no backslash; and consequently the Local read path of the `CIStream`
constructor — change into the directory part, open the file part — resolves
exactly the original path (its outcome depends on the file system only
through the entry at the original path). -/
theorem filePathSplit_props (s : List Char) :
    (FilePathSplit s).1 ++ (FilePathSplit s).2 = s ∧
    ('\\' ∉ s → (FilePathSplit s).1 = []) ∧
    ((FilePathSplit s).1 ≠ [] → ∃ t, (FilePathSplit s).1 = t ++ ['\\']) ∧
    '\\' ∉ (FilePathSplit s).2 ∧
    (∀ cwd0 fs, (FilePathSplit s).1 ≠ [] →
      (cistreamLocal s cwd0 fs).1 = Option.map textRead (fs s)) := by
  cases hfs : findLastBS s with
  | none =>
    have hsplit : FilePathSplit s = ([], s) := by simp [FilePathSplit, hfs]
    rw [hsplit]
    exact ⟨rfl, fun _ => rfl, fun hd => absurd rfl hd,
      (findLastBS_eq_none s).mp hfs, fun cwd0 fs hd => absurd rfl hd⟩
  | some i =>
    have htake : s.take (i + 1) ≠ [] := by
      cases s with
      | nil => exact absurd hfs (by simp [findLastBS])
      | cons c cs => simp
    have hsplit : FilePathSplit s = (s.take (i + 1), s.drop (i + 1)) := by
      simp [FilePathSplit, hfs]
    rw [hsplit]
    refine ⟨List.take_append_drop _ _, ?_, fun _ => findLastBS_take s i hfs,
      findLastBS_drop s i hfs, ?_⟩
    · intro hnb
      have hn := (findLastBS_eq_none s).mpr hnb
      rw [hn] at hfs
      exact Option.noConfusion hfs
    · intro cwd0 fs hd
      simp only [cistreamLocal, hsplit]
      rw [if_neg htake, List.take_append_drop]
      cases hv : fs s with
      | none => simp
      | some bytes => simp

/-- Witness for C9 at `a\b`: the directory part ends with a backslash. -/
theorem filePathSplit_props_w :
    ∃ t, (FilePathSplit ("a\\b".toList)).1 = t ++ ['\\'] :=
  (filePathSplit_props ("a\\b".toList)).2.2.1 (by decide)

end Condor2Nav
